import Mathlib

/-
  Verification of the pyTBA event model and OPR statistics engine.

  This file is a shallow embedding, in Lean 4, of the Python code in
  src/pytba (util.py, models.py, stats.py).  Python dictionaries coming
  from the JSON API are embedded as a small JSON-like inductive type J;
  Python exceptions are embedded as an error type PyErr together with
  Except-valued functions; numpy arrays are embedded as lists of rows,
  and numpy.linalg.solve is modelled mathematically by exact Gaussian
  elimination over exact rationals (in exact arithmetic LAPACK dgesv
  fails exactly on singular square systems, and it returns the empty
  solution for the 0-by-0 system, as numpy does for empty inputs).

  Scores are represented by the exact rational type Q below instead of
  IEEE floating point; this is the usual exact-arithmetic idealisation
  of the numeric code.
-/

/-- Python exceptions that the embedded code can raise.
    valueError is raised explicitly by stats.opr for malformed statistic
    specs (and by int() on a non-numeric literal inside util.team_format);
    keyError by dict subscripts and dpath.util.get;
    indexError by subscripting the empty string and by column-indexing a
    1-dimensional (empty) numpy array;
    typeError stands for the numpy failure on non-numeric score data;
    linAlgSingular is numpy.linalg.LinAlgError (singular matrix);
    assertionError is a failed Python assert statement. -/
inductive PyErr where
  | valueError
  | keyError
  | indexError
  | typeError
  | linAlgSingular
  | assertionError
deriving DecidableEq, Repr

/-- Decidable equality for Except values, used to evaluate the embedded
    fallible functions on concrete inputs. -/
instance {ε α : Type} [DecidableEq ε] [DecidableEq α] : DecidableEq (Except ε α) := fun x y =>
  match x, y with
  | .ok a, .ok b =>
    if h : a = b then isTrue (by rw [h]) else isFalse (by intro hh; cases hh; exact h rfl)
  | .error e, .error f =>
    if h : e = f then isTrue (by rw [h]) else isFalse (by intro hh; cases hh; exact h rfl)
  | .ok _, .error _ => isFalse (by intro hh; cases hh)
  | .error _, .ok _ => isFalse (by intro hh; cases hh)

/-- Exact rational numbers in lowest terms with a positive denominator,
    used to embed all match scores and OPR values.  Every operation
    normalises through mkQ, so two equal values are structurally equal. -/
structure Q where
  num : Int
  den : Nat
deriving DecidableEq, Repr

/-- Normalising constructor for Q: moves the sign to the numerator and
    divides by the gcd.  A zero denominator never occurs on the verified
    code paths (Gaussian elimination only divides by nonzero pivots);
    it is mapped to 0 to keep the function total. -/
def mkQ (n d : Int) : Q :=
  if d = 0 then ⟨0, 1⟩
  else
    let s : Int := if d < 0 then -1 else 1
    let n2 := s * n
    let d2 := (s * d).toNat
    let g := n2.natAbs.gcd d2
    ⟨n2 / (g : Int), d2 / g⟩

def Q.ofInt (n : Int) : Q := ⟨n, 1⟩

def Q.ofNat (n : Nat) : Q := ⟨(n : Int), 1⟩

def Q.add (a b : Q) : Q := mkQ (a.num * b.den + b.num * a.den) ((a.den : Int) * b.den)

def Q.sub (a b : Q) : Q := mkQ (a.num * b.den - b.num * a.den) ((a.den : Int) * b.den)

def Q.mul (a b : Q) : Q := mkQ (a.num * b.num) ((a.den : Int) * b.den)

def Q.div (a b : Q) : Q := mkQ (a.num * b.den) ((a.den : Int) * b.num)

/- ------------------------------------------------------------------
   Python string primitives (ASCII model).
   Python str values are embedded as Lean String; the operations the
   source uses (lower, isdigit, startswith, replace, int(), indexing,
   slicing, split) are re-implemented below over the character list so
   that they are faithful to CPython on the ASCII strings involved and
   reduce inside the kernel.
   ------------------------------------------------------------------ -/

/-- ASCII lowering of one character (the str.lower behaviour on ASCII;
    the non-ASCII unicode cases are outside this model). -/
def lowChar (c : Char) : Char :=
  if 'A' ≤ c ∧ c ≤ 'Z' then Char.ofNat (c.toNat + 32) else c

/-- Python str.lower (ASCII model). -/
def pyLower (s : String) : String := ⟨s.data.map lowChar⟩

/-- Python str.isdigit (ASCII model: nonempty and all decimal digits). -/
def pyIsDigit (s : String) : Bool :=
  !s.data.isEmpty && s.data.all Char.isDigit

/-- Tests whether the first list is an initial segment of the second. -/
def startsCl : List Char → List Char → Bool
  | [], _ => true
  | _ :: _, [] => false
  | p :: ps, c :: cs => p == c && startsCl ps cs

/-- Python str.startswith. -/
def pyStartsWith (s pre : String) : Bool := startsCl pre.data s.data

/-- Fuel-driven worker for pyReplace; the fuel is the length of the
    subject string, which bounds the number of consumed characters. -/
def replaceAux (pat rep : List Char) : Nat → List Char → List Char
  | _, [] => []
  | 0, s => s
  | fuel + 1, c :: cs =>
    if startsCl pat (c :: cs) && !pat.isEmpty then
      rep ++ replaceAux pat rep fuel (List.drop (pat.length - 1) cs)
    else c :: replaceAux pat rep fuel cs

/-- Python str.replace: replaces every non-overlapping occurrence of pat,
    scanning left to right.  (The source only ever replaces nonempty
    patterns; the empty-pattern corner of CPython is not modelled.) -/
def pyReplace (s pat rep : String) : String :=
  ⟨replaceAux pat.data rep.data s.data.length s.data⟩

/-- Python s[1:] on a string. -/
def pyTail (s : String) : String := ⟨s.data.tail⟩

/-- Whitespace characters stripped by Python int(). -/
def isWs (c : Char) : Bool := c = ' ' || c = '\t' || c = '\n' || c = '\r'

def trimWs (cs : List Char) : List Char :=
  ((cs.dropWhile isWs).reverse.dropWhile isWs).reverse

/-- Decimal value of a digit run; none on the empty list or a non-digit. -/
def digitsValAux : List Char → Nat → Option Nat
  | [], acc => some acc
  | c :: cs, acc =>
    if c.isDigit then digitsValAux cs (acc * 10 + (c.toNat - 48)) else none

def natOfDigits : List Char → Option Nat
  | [] => none
  | cs => digitsValAux cs 0

/-- Python int(str): strips whitespace, accepts an optional sign followed
    by a nonempty digit run, otherwise raises ValueError (here: none).
    (Underscore digit grouping of Python 3.6+ is not modelled; the source
    never feeds such literals.) -/
def pyInt (s : String) : Option Int :=
  match trimWs s.data with
  | [] => none
  | '+' :: rest => (natOfDigits rest).map Int.ofNat
  | '-' :: rest => (natOfDigits rest).map (fun n => -(Int.ofNat n))
  | cs => (natOfDigits cs).map Int.ofNat

/-- Splits a character list on a separator (Python str.split with a
    single-character separator, keeping empty fields). -/
def splitChar (sep : Char) : List Char → List (List Char)
  | [] => [[]]
  | c :: cs =>
    let r := splitChar sep cs
    if c = sep then [] :: r
    else
      match r with
      | [] => [[c]]
      | g :: gs => (c :: g) :: gs

/- ------------------------------------------------------------------
   JSON-like values and dpath.util.get.
   ------------------------------------------------------------------ -/

/-- JSON-like values: the shape of the TBA API payloads the source
    traverses (numbers carried as exact rationals Q). -/
inductive J where
  | num (q : Q)
  | str (s : String)
  | arr (elems : List J)
  | obj (fields : List (String × J))

/-- Python dict lookup on an association list (dicts have unique keys,
    so first-match lookup is the dict behaviour). -/
def jlook : List (String × J) → String → Option J
  | [], _ => none
  | (k, v) :: rest, key => if k == key then some v else jlook rest key

/-- Follows one path segment list through a J value: object fields by
    name, array elements by a decimal index segment (the dpath list
    convention).  Empty segments (as produced by a leading or doubled
    separator) are skipped, which is how dpath treats them.  Glob
    patterns are not modelled: the source only uses literal paths. -/
def dgetSegs : List String → J → Option J
  | [], j => some j
  | s :: rest, j =>
    if s == "" then dgetSegs rest j
    else
      match j with
      | .obj fs =>
        match jlook fs s with
        | some v => dgetSegs rest v
        | none => none
      | .arr xs =>
        match natOfDigits s.data with
        | some i =>
          match xs.get? i with
          | some v => dgetSegs rest v
          | none => none
        | none => none
      | _ => none

/-- dpath.util.get on a literal slash-separated path; none is the
    KeyError raised when nothing matches. -/
def dget (j : J) (path : String) : Option J :=
  dgetSegs ((splitChar '/' path.data).map (fun cs => String.mk cs)) j

/-- Reads a numeric leaf out of a dpath result: a missing path is the
    dpath KeyError; a non-numeric leaf cannot enter the numpy solver and
    is surfaced here as the typeError it would eventually cause. -/
def toNum : Option J → Except PyErr Q
  | none => .error .keyError
  | some (.num q) => .ok q
  | some _ => .error .typeError

/- ------------------------------------------------------------------
   util.team_format (src/pytba/util.py lines 4-13).
   ------------------------------------------------------------------ -/

/-- A Python team identifier argument: an int or a str. -/
inductive TeamId where
  | int (n : Int)
  | str (s : String)

/-- The default format string "frc{}" applied to a number
    (format.format(team) in the source). -/
def fmtTeam (n : Int) : String := "frc" ++ toString n

/-- util.team_format with the default format "frc{}".
    Source (util.py 4-13):
      if isinstance(team, int): return format.format(team)
      if isinstance(team, str):
        team = team.lower()
        if team.isdigit(): return team_format(int(team), format)
        if team.startswith("frc"):
          team_int = int(team.replace("frc", ""))
          return team_format(team_int, format)
      raise ValueError("Bad team format: " + str(team))
    The recursive calls land in the int branch and are inlined here.
    int() failures on a digitless remainder propagate as the same
    Python exception class (ValueError) as the explicit raise. -/
def team_format : TeamId → Except PyErr String
  | .int n => .ok (fmtTeam n)
  | .str s =>
    let t := pyLower s
    if pyIsDigit t then
      match pyInt t with
      | some n => .ok (fmtTeam n)
      | none => .error .valueError
    else if pyStartsWith t "frc" then
      match pyInt (pyReplace t "frc" "") with
      | some n => .ok (fmtTeam n)
      | none => .error .valueError
    else .error .valueError

/- ------------------------------------------------------------------
   Data model (src/pytba/models.py).
   The API payload dicts are embedded as structures carrying exactly the
   fields the verified code reads; MatchM.toJ renders the full match
   dict for root-relative dpath lookups.
   ------------------------------------------------------------------ -/

/-- A team model; the source only ever reads its key field. -/
structure Team where
  key : String
deriving DecidableEq, Repr

/-- One alliance sub-object of a match: the team-key list and the score
    (match[ALLIANCES][color][teams / score]). -/
structure Alliance where
  teams : List String
  score : Q
deriving DecidableEq, Repr

/-- A match model with the fields the source reads.  score_breakdown is
    the per-alliance breakdown dict (keyed normally by "red" and
    "blue"); a match without a breakdown carries the empty list. -/
structure MatchM where
  key : String
  comp_level : String
  set_number : Nat
  match_number : Nat
  red : Alliance
  blue : Alliance
  score_breakdown : List (String × J)

/-- Renders one alliance as its JSON sub-object. -/
def Alliance.toJ (a : Alliance) : J :=
  J.obj [("teams", J.arr (a.teams.map J.str)), ("score", J.num a.score)]

/-- Renders the match dict as a J value, for the root-relative dpath
    lookups of stats.opr (the leading-slash statistic paths). -/
def MatchM.toJ (m : MatchM) : J :=
  J.obj [("key", J.str m.key),
         ("comp_level", J.str m.comp_level),
         ("set_number", J.num (Q.ofNat m.set_number)),
         ("match_number", J.num (Q.ofNat m.match_number)),
         ("alliances", J.obj [("red", m.red.toJ), ("blue", m.blue.toJ)]),
         ("score_breakdown", J.obj m.score_breakdown)]

/-- The Event state the verified operations read: the (possibly
    filtered) team list self.teams and the (sorted) match list
    self.matches, the latter embedded under the name matchList because
    matches is reserved in Lean.  info, awards and rankings are not
    consulted by any claim under verification. -/
structure Event where
  teams : List Team
  matchList : List MatchM

/-- The info payload block; the constructor only reads its key entry. -/
structure EventInfo where
  key : String
deriving DecidableEq, Repr

/-- The key attribute left on an Event by Event.__init__
    (models.py line 23):
      if key is None and info is not None: self.key = info[KEY]
    The result is the value of self.key after construction; none means
    the attribute was never assigned, so that a later access of
    event.key raises AttributeError.  Note that this is the only
    assignment of self.key in the constructor: an explicit key override
    is dropped, and no error is raised when both arguments are None. -/
def event_init_key (info : Option EventInfo) (key : Option String) : Option String :=
  match key, info with
  | none, some i => some i.key
  | _, _ => none

/-- Event.get_qual_matches (models.py 118-120):
    list(filter(lambda match: match[comp_level] == qm, self.matches)). -/
def get_qual_matches (e : Event) : List MatchM :=
  e.matchList.filter (fun m => m.comp_level == "qm")

/-- Event.get_playoff_matches (models.py 122-124):
    list(filter(lambda match: match[comp_level] != qm, self.matches)). -/
def get_playoff_matches (e : Event) : List MatchM :=
  e.matchList.filter (fun m => m.comp_level != "qm")

/-- The levels base-offset dict of match_sort_key (models.py 150-156);
    none is the KeyError raised on an unknown competition level. -/
def levelBase (s : String) : Option Nat :=
  if s = "qm" then some 0
  else if s = "ef" then some 1000
  else if s = "qf" then some 2000
  else if s = "sf" then some 3000
  else if s = "f" then some 4000
  else none

/-- match_sort_key (models.py 145-161):
      key = levels[match[comp_level]]
      key += 100 * match[set_number] if match[comp_level] != qm else 0
      key += match[match_number]
      return key -/
def match_sort_key (m : MatchM) : Option Nat :=
  match levelBase m.comp_level with
  | none => none
  | some base =>
    some (base + (if m.comp_level ≠ "qm" then 100 * m.set_number else 0) + m.match_number)

/-- The set-number component that actually enters the sort key: 0 for a
    qualification match, the set number otherwise. -/
def effSet (m : MatchM) : Nat :=
  if m.comp_level = "qm" then 0 else m.set_number

/- ------------------------------------------------------------------
   The OPR statistics engine (src/pytba/stats.py).
   ------------------------------------------------------------------ -/

/-- One statistic extractor passed to opr via kwargs: a dPath string, a
    callable taking the match and the current alliance color, or any
    other Python value (for example an int), which the source rejects
    with ValueError.  Callables are embedded as total Lean functions
    returning a score. -/
inductive Stat where
  | path (s : String)
  | func (f : MatchM → String → Q)
  | other

/-- The literal path the source always installs for the total statistic
    (stats.py line 71). -/
def totPathStr : String := "/alliances/##ALLIANCE/score"

/-- Python dict item assignment d[k] = v on an association list with
    unique keys: replaces the value in place if the key is present
    (keeping its position in the insertion order), appends otherwise. -/
def dictSet : List (String × Stat) → String → Stat → List (String × Stat)
  | [], k, v => [(k, v)]
  | (k2, v2) :: rest, k, v =>
    if k2 == k then (k2, v) :: rest else (k2, v2) :: dictSet rest k v

/-- The kwargs dict opr actually evaluates: the caller kwargs after the
    line  kwargs[total] = /alliances/##ALLIANCE/score  (stats.py 71). -/
def oprKwargs (kw0 : List (String × Stat)) : List (String × Stat) :=
  dictSet kw0 "total" (.path totPathStr)

/-- Evaluates one extractor for the red row of a match
    (stats.py 75-85):
      if callable(item): score.append(item(match, red))
      elif isinstance(item, str) and item[0] == '/':
        path = item.replace(ALLIANCE, red).replace(OPPALLIANCE, blue)[1:]
        score.append(dpath.util.get(match, path))
      elif isinstance(item, str):
        path = item.replace(ALLIANCE, red)
        score.append(dpath.util.get(match[score_breakdown][red], path))
      else: raise ValueError(...)
    Subscripting the empty string raises IndexError before the slash
    test can run. -/
def evalStatRed (m : MatchM) : Stat → Except PyErr Q
  | .func f => .ok (f m "red")
  | .path s =>
    match s.data with
    | [] => .error .indexError
    | c :: _ =>
      if c = '/' then
        toNum (dget m.toJ
          (pyTail (pyReplace (pyReplace s "##ALLIANCE" "red") "##OPPALLIANCE" "blue")))
      else
        match jlook m.score_breakdown "red" with
        | none => .error .keyError
        | some sb => toNum (dget sb (pyReplace s "##ALLIANCE" "red"))
  | .other => .error .valueError

/-- Evaluates one extractor for the blue row of a match
    (stats.py 89-99).  Unlike the red row, the non-slash literal branch
    also substitutes ##OPPALLIANCE (with red):
      elif isinstance(item, str):
        path = item.replace(ALLIANCE, blue).replace(OPPALLIANCE, red)
        score.append(dpath.util.get(match[score_breakdown][blue], path)) -/
def evalStatBlue (m : MatchM) : Stat → Except PyErr Q
  | .func f => .ok (f m "blue")
  | .path s =>
    match s.data with
    | [] => .error .indexError
    | c :: _ =>
      if c = '/' then
        toNum (dget m.toJ
          (pyTail (pyReplace (pyReplace s "##ALLIANCE" "blue") "##OPPALLIANCE" "red")))
      else
        match jlook m.score_breakdown "blue" with
        | none => .error .keyError
        | some sb =>
          toNum (dget sb (pyReplace (pyReplace s "##ALLIANCE" "blue") "##OPPALLIANCE" "red"))
  | .other => .error .valueError

/-- Left-to-right effectful map over Except: the embedding of a Python
    for loop that appends results and lets the first exception escape. -/
def mapExcept (f : α → Except PyErr β) : List α → Except PyErr (List β)
  | [] => .ok []
  | a :: as =>
    match f a with
    | .error er => .error er
    | .ok b =>
      match mapExcept f as with
      | .error er => .error er
      | .ok bs => .ok (b :: bs)

/-- The two score rows one qualification match contributes (red row
    first, then blue row), each evaluating every kwargs entry in dict
    order (stats.py 73-100). -/
def scoreRows (kwargs : List (String × Stat)) (m : MatchM) : Except PyErr (List (List Q)) :=
  match mapExcept (fun kv => evalStatRed m kv.2) kwargs with
  | .error er => .error er
  | .ok r =>
    match mapExcept (fun kv => evalStatBlue m kv.2) kwargs with
    | .error er => .error er
    | .ok b => .ok [r, b]

/-- The full match_scores list built by the main loop of opr
    (stats.py 72-100): two rows per qualification match, in match-list
    order, raising on the first failing extractor. -/
def computeScores (e : Event) (kwargs : List (String × Stat)) : Except PyErr (List (List Q)) :=
  match mapExcept (scoreRows kwargs) (get_qual_matches e) with
  | .error er => .error er
  | .ok rows => .ok rows.flatten

/-- One participation row of match_matrix (stats.py 23-24 and 27-28):
    entry 1 if the team key is listed on the alliance, else 0, over the
    event team ordering. -/
def allianceRow (teams : List Team) (allianceTeams : List String) : List Nat :=
  teams.map (fun t => if t.key ∈ allianceTeams then 1 else 0)

/-- The unfiltered participation matrix rows (stats.py 20-29): for each
    qualification match, the red row then the blue row. -/
def rawRows (e : Event) : List (List Nat) :=
  (get_qual_matches e).flatMap
    (fun m => [allianceRow e.teams m.red.teams, allianceRow e.teams m.blue.teams])

/-- Per-column nonzero count, numpy.apply_along_axis(count_nonzero, 0, mat)
    for column j (stats.py 32). -/
def colCount (e : Event) (j : Nat) : Nat :=
  (rawRows e).countP (fun row => row.getD j 0 != 0)

/-- The retained column indices: columns whose participation count is
    strictly greater than 8 (stats.py 32), in increasing column order. -/
def retainedIdx (e : Event) : List Nat :=
  (List.range e.teams.length).filter (fun j => 8 < colCount e j)

/-- match_matrix (stats.py 7-32): builds the participation rows and
    keeps the columns with count > 8.  When the event has no
    qualification matches, numpy.array([]) is 1-dimensional, and the
    two-axis subscript mat[:, mask] raises IndexError; that failure is
    the error case here. -/
def match_matrix (e : Event) : Except PyErr (List (List Nat)) :=
  if (rawRows e).isEmpty then .error .indexError
  else .ok ((rawRows e).map (fun row => (retainedIdx e).map (fun j => row.getD j 0)))

/-- The retained team ordering that the filtered matrix columns follow:
    the event team list restricted to the retained column indices (the
    implicit output of the builder in the spec, section 4.4). -/
def retainedTeams (e : Event) : List Team :=
  (retainedIdx e).filterMap (fun j => e.teams.get? j)

/-- Dot product of two equally long vectors. -/
def dotQ (u v : List Q) : Q := (List.zipWith Q.mul u v).foldr Q.add (Q.ofInt 0)

/-- Column j of a row-major matrix. -/
def colOf (rows : List (List Q)) (j : Nat) : List Q :=
  rows.map (fun r => r.getD j (Q.ofInt 0))

/-- numpy.transpose(A).dot(A) for a matrix with w columns
    (stats.py 105). -/
def matTmulA (A : List (List Q)) (w : Nat) : List (List Q) :=
  (List.range w).map (fun i => (List.range w).map (fun j => dotQ (colOf A i) (colOf A j)))

/-- numpy.transpose(A).dot(b) for a matrix with w columns
    (stats.py 114). -/
def matTvec (A : List (List Q)) (w : Nat) (b : List Q) : List Q :=
  (List.range w).map (fun i => dotQ (colOf A i) b)

/-- Picks the first row with a nonzero leading coefficient, returning it
    and the remaining rows. -/
def pickPivot : List (List Q) → Option (List Q × List (List Q))
  | [] => none
  | r :: rs =>
    if r.headD (Q.ofInt 0) ≠ Q.ofInt 0 then some (r, rs)
    else
      match pickPivot rs with
      | none => none
      | some (p, rest) => some (p, r :: rest)

/-- Eliminates the leading column of a row against the pivot row and
    drops that column. -/
def elimFirst (p r : List Q) : List Q :=
  List.zipWith (fun a b => Q.sub a (Q.mul (Q.div (r.headD (Q.ofInt 0)) (p.headD (Q.ofInt 0))) b))
    r.tail p.tail

/-- Back-substitution step: solves the pivot equation for the leading
    unknown given the already-solved trailing unknowns. -/
def backSub (p : List Q) (xs : List Q) : Q :=
  Q.div (Q.sub (p.getLastD (Q.ofInt 0)) (dotQ (p.tail.dropLast) xs)) (p.headD (Q.ofInt 0))

/-- Exact Gaussian elimination on an n-unknown augmented system: the
    mathematical model of numpy.linalg.solve (stats.py 114).  In exact
    arithmetic LAPACK dgesv fails exactly when the square matrix is
    singular, which is exactly when no nonzero pivot can be found at
    some elimination stage; the 0-by-0 system solves to the empty
    vector, which is what numpy returns for empty inputs. -/
def gauss : Nat → List (List Q) → Except PyErr (List Q)
  | 0, _ => .ok []
  | n + 1, rows =>
    match pickPivot rows with
    | none => .error .linAlgSingular
    | some (p, rest) =>
      match gauss n (rest.map (elimFirst p)) with
      | .error er => .error er
      | .ok xs => .ok (backSub p xs :: xs)

/-- Adjoins the right-hand side to the coefficient rows. -/
def augment (mat : List (List Q)) (b : List Q) : List (List Q) :=
  List.zipWith (fun r x => r ++ [x]) mat b

/-- One normal-equation solve of opr (stats.py 112-114):
    numpy.linalg.solve(transpose(A).A, transpose(A).b) for the
    participation matrix A with w retained columns. -/
def oprSolve (A : List (List Q)) (w : Nat) (b : List Q) : Except PyErr (List Q) :=
  gauss w (augment (matTmulA A w) (matTvec A w b))

/-- The per-statistic solution loop of opr (stats.py 110-120): for each
    kwargs key in dict order, solve for that score column and check the
    assert len(opr) == len(event.teams); the first failure escapes. -/
def oprSols (e : Event) (kwargs : List (String × Stat)) (A : List (List Q))
    (scores : List (List Q)) : Except PyErr (List (String × List Q)) :=
  mapExcept
    (fun ci =>
      match oprSolve A (retainedIdx e).length (scores.map (fun r => r.getD ci.1 (Q.ofInt 0))) with
      | .error er => .error er
      | .ok x => if x.length = e.teams.length then .ok (ci.2.1, x) else .error .assertionError)
    kwargs.enum

/-- The result assembly of opr (stats.py 107-119): a dict entry per
    event team, mapping each statistic key to the component of its
    solution vector at that team index. -/
def assemble (teams : List Team) (sols : List (String × List Q)) :
    List (String × List (String × Q)) :=
  teams.enum.map (fun it => (it.2.key, sols.map (fun kx => (kx.1, kx.2.getD it.1 (Q.ofInt 0)))))

/-- stats.opr (stats.py 35-122), as a function from the event and the
    caller kwargs to either the OPR dict (team key to statistic dict)
    or the first Python exception raised.  The stages follow the source
    order: install the synthetic total path, evaluate all score rows,
    build the participation matrix, solve per statistic under the
    length assert, then assemble the per-team dicts. -/
def opr (e : Event) (kw0 : List (String × Stat)) :
    Except PyErr (List (String × List (String × Q))) :=
  let kwargs := oprKwargs kw0
  match computeScores e kwargs with
  | .error er => .error er
  | .ok scores =>
    match match_matrix e with
    | .error er => .error er
    | .ok mN =>
      let A := mN.map (fun r => r.map (fun x => Q.ofNat x))
      match oprSols e kwargs A scores with
      | .error er => .error er
      | .ok sols => .ok (assemble e.teams sols)

/- ------------------------------------------------------------------
   Helper lemmas.
   ------------------------------------------------------------------ -/

/-- The literal branch of evalStatRed / evalStatBlue after the path has
    been substituted: resolve against the score-breakdown sub-object of
    the given alliance color. -/
def breakdownResolve (m : MatchM) (color : String) (p : String) : Except PyErr Q :=
  match jlook m.score_breakdown color with
  | none => .error .keyError
  | some sb => toNum (dget sb p)

theorem mapExcept_ok_forall2 {f : α → Except PyErr β} :
    ∀ {l : List α} {out : List β}, mapExcept f l = .ok out →
      List.Forall₂ (fun a b => f a = .ok b) l out := by
  intro l
  induction l with
  | nil => intro out h; cases h; exact List.Forall₂.nil
  | cons a as ih =>
    intro out h
    unfold mapExcept at h
    cases hfa : f a with
    | error er => rw [hfa] at h; cases h
    | ok b =>
      rw [hfa] at h
      cases hrec : mapExcept f as with
      | error er => rw [hrec] at h; cases h
      | ok bs => rw [hrec] at h; cases h; exact List.Forall₂.cons hfa (ih hrec)

theorem mapExcept_error_of {f : α → Except PyErr β} {er : PyErr} :
    ∀ {l : List α}, (∀ a ∈ l, f a = .error er ∨ ∃ b, f a = .ok b) →
      (∃ a ∈ l, f a = .error er) → mapExcept f l = .error er := by
  intro l
  induction l with
  | nil => intro _ h2; rcases h2 with ⟨a, ha, _⟩; cases ha
  | cons a as ih =>
    intro h1 h2
    unfold mapExcept
    rcases h1 a (List.mem_cons_self a as) with ha | ⟨b, hb⟩
    · rw [ha]
    · rw [hb]
      have htail : ∃ x ∈ as, f x = .error er := by
        rcases h2 with ⟨x, hx, hfx⟩
        rcases List.mem_cons.mp hx with rfl | hxs
        · rw [hb] at hfx; cases hfx
        · exact ⟨x, hxs, hfx⟩
      rw [ih (fun x hx => h1 x (List.mem_cons_of_mem a hx)) htail]

theorem gauss_ok_length :
    ∀ (n : Nat) (rows : List (List Q)) (xs : List Q), gauss n rows = .ok xs → xs.length = n := by
  intro n
  induction n with
  | zero => intro rows xs h; cases h; rfl
  | succ k ih =>
    intro rows xs h
    unfold gauss at h
    split at h
    · cases h
    · split at h
      · cases h
      · rename_i ys hys
        cases h
        simp [ih _ _ hys]

theorem dictSet_lookup_self (d : List (String × Stat)) (k : String) (v : Stat) :
    (dictSet d k v).lookup k = some v := by
  induction d with
  | nil => simp [dictSet, List.lookup]
  | cons kv rest ih =>
    obtain ⟨k2, v2⟩ := kv
    by_cases hk : k2 = k
    · subst hk
      simp [dictSet, List.lookup]
    · have hbeq : (k2 == k) = false := beq_false_of_ne hk
      have hbeq2 : (k == k2) = false := beq_false_of_ne (fun h => hk h.symm)
      simp [dictSet, hbeq, List.lookup, hbeq2, ih]

theorem dictSet_ne_nil (d : List (String × Stat)) (k : String) (v : Stat) :
    dictSet d k v ≠ [] := by
  cases d with
  | nil => simp [dictSet]
  | cons kv rest =>
    obtain ⟨k2, v2⟩ := kv
    by_cases hk : (k2 == k)
    · simp [dictSet, hk]
    · simp [dictSet, hk]

theorem dictSet_keys_of_mem {d : List (String × Stat)} {k : String}
    (hmem : k ∈ d.map Prod.fst) (v : Stat) :
    (dictSet d k v).map Prod.fst = d.map Prod.fst := by
  induction d with
  | nil => cases hmem
  | cons kv rest ih =>
    obtain ⟨k2, v2⟩ := kv
    by_cases hk : k2 = k
    · subst hk
      simp [dictSet]
    · have hbeq : (k2 == k) = false := beq_false_of_ne hk
      have hmem2 : k ∈ rest.map Prod.fst := by
        rcases List.mem_cons.mp hmem with heq | h
        · exact absurd heq.symm hk
        · exact h
      simp only [dictSet, hbeq, Bool.false_eq_true, if_false, List.map_cons, ih hmem2]

theorem dictSet_keys_of_not_mem {d : List (String × Stat)} {k : String}
    (hmem : k ∉ d.map Prod.fst) (v : Stat) :
    (dictSet d k v).map Prod.fst = d.map Prod.fst ++ [k] := by
  induction d with
  | nil => simp [dictSet]
  | cons kv rest ih =>
    obtain ⟨k2, v2⟩ := kv
    have hk : k2 ≠ k := by
      intro heq
      exact hmem (by rw [heq]; exact List.mem_cons_self _ _)
    have hbeq : (k2 == k) = false := beq_false_of_ne hk
    have hmem2 : k ∉ rest.map Prod.fst := fun h => hmem (List.mem_cons_of_mem _ h)
    simp only [dictSet, hbeq, Bool.false_eq_true, if_false, List.map_cons, ih hmem2,
      List.cons_append]

theorem dictSet_key_mem (d : List (String × Stat)) (k : String) (v : Stat) :
    k ∈ (dictSet d k v).map Prod.fst := by
  by_cases h : k ∈ d.map Prod.fst
  · rw [dictSet_keys_of_mem h]; exact h
  · rw [dictSet_keys_of_not_mem h]
    exact List.mem_append_right _ (List.mem_singleton.mpr rfl)

theorem dictSet_mem_of_ne {d : List (String × Stat)} {k2 : String} {v2 : Stat}
    (h : (k2, v2) ∈ d) (k : String) (v : Stat) (hne : k2 ≠ k) : (k2, v2) ∈ dictSet d k v := by
  induction d with
  | nil => cases h
  | cons kv rest ih =>
    obtain ⟨k3, v3⟩ := kv
    by_cases hk : (k3 == k)
    · simp only [dictSet, hk, if_true]
      rcases List.mem_cons.mp h with heq | hrest
      · injection heq with h1 h2
        subst h1
        exact absurd (eq_of_beq hk) hne
      · exact List.mem_cons_of_mem _ hrest
    · simp only [dictSet, hk, Bool.false_eq_true, if_false]
      rcases List.mem_cons.mp h with heq | hrest
      · rw [heq]; exact List.mem_cons_self _ _
      · exact List.mem_cons_of_mem _ (ih hrest)

theorem dictSet_keys_sup {d : List (String × Stat)} {k2 : String}
    (h : k2 ∈ d.map Prod.fst) (k : String) (v : Stat) :
    k2 ∈ (dictSet d k v).map Prod.fst := by
  by_cases hmem : k ∈ d.map Prod.fst
  · rw [dictSet_keys_of_mem hmem]; exact h
  · rw [dictSet_keys_of_not_mem hmem]; exact List.mem_append_left _ h

theorem dictSet_keys_nodup {d : List (String × Stat)} (hnd : (d.map Prod.fst).Nodup)
    (k : String) (v : Stat) : ((dictSet d k v).map Prod.fst).Nodup := by
  by_cases hmem : k ∈ d.map Prod.fst
  · rw [dictSet_keys_of_mem hmem]; exact hnd
  · rw [dictSet_keys_of_not_mem hmem]
    refine List.Nodup.append hnd (List.nodup_singleton k) ?_
    intro x hx hx2
    rw [List.mem_singleton] at hx2
    subst hx2
    exact hmem hx

theorem lookup_map_pair (g : List Q → Q) (l : List (String × List Q)) (k : String) :
    (l.map (fun kx => (kx.1, g kx.2))).lookup k = (l.lookup k).map g := by
  induction l with
  | nil => simp [List.lookup]
  | cons kv rest ih =>
    obtain ⟨k2, x⟩ := kv
    by_cases hk : (k == k2)
    · simp [List.lookup, hk]
    · simp [List.lookup, hk, ih]

theorem nodup_lookup {l : List (String × List Q)} (hnd : (l.map Prod.fst).Nodup)
    {k : String} {x : List Q} (h : (k, x) ∈ l) : l.lookup k = some x := by
  induction l with
  | nil => cases h
  | cons kv rest ih =>
    obtain ⟨k2, y⟩ := kv
    rcases List.mem_cons.mp h with heq | hrest
    · injection heq with h1 h2
      subst h1; subst h2
      simp [List.lookup]
    · rw [List.map_cons] at hnd
      have hnd2 := List.nodup_cons.mp hnd
      have hne : k ≠ k2 := by
        intro heq2
        subst heq2
        exact hnd2.1 (List.mem_map.mpr ⟨(k, x), hrest, rfl⟩)
      have : (k == k2) = false := beq_false_of_ne hne
      simp only [List.lookup, this]
      exact ih hnd2.2 hrest

theorem forall2_map_eq {R : α → β → Prop} {g : β → γ} {h : α → γ} :
    ∀ {l : List α} {out : List β}, List.Forall₂ R l out → (∀ a b, R a b → g b = h a) →
      out.map g = l.map h := by
  intro l out hf
  induction hf with
  | nil => intro; rfl
  | cons hr _ ih => intro hgh; simp [hgh _ _ hr, ih hgh]

theorem length_filter_both (p : α → Bool) (l : List α) :
    (l.filter p).length + (l.filter (fun a => !p a)).length = l.length := by
  induction l with
  | nil => rfl
  | cons a as ih =>
    by_cases h : p a
    · simp [List.filter_cons, h, ← ih]; omega
    · simp [List.filter_cons, h, ← ih]; omega

theorem filterMap_range_get (l : List α) :
    (List.range l.length).filterMap (fun j => l.get? j) = l := by
  induction l using List.reverseRecOn with
  | nil => rfl
  | append_singleton l2 a ih =>
    rw [List.length_append, List.length_singleton, List.range_succ, List.filterMap_append]
    have h1 : (List.range l2.length).filterMap (fun j => (l2 ++ [a]).get? j) = l2 := by
      rw [List.filterMap_congr (g := fun j => l2.get? j), ih]
      intro j hj
      rw [List.mem_range] at hj
      rw [List.get?_append hj]
    have h2 : [l2.length].filterMap (fun j => (l2 ++ [a]).get? j) = [a] := by
      simp [List.filterMap, List.get?_concat_length]
    rw [h1, h2]

theorem countP_flatMap (p : β → Bool) (f : α → List β) :
    ∀ (l : List α), ((l.flatMap f).countP p) = (l.map (fun a => (f a).countP p)).sum := by
  intro l
  induction l with
  | nil => rfl
  | cons a as ih => simp [List.flatMap_cons, List.countP_append, ih]

theorem sum_le_length_of_le_one {l : List Nat} (h : ∀ x ∈ l, x ≤ 1) : l.sum ≤ l.length := by
  induction l with
  | nil => simp
  | cons a as ih =>
    have ha := h a (List.mem_cons_self a as)
    have := ih (fun x hx => h x (List.mem_cons_of_mem a hx))
    simp only [List.sum_cons, List.length_cons]
    omega

theorem sum_indicator (p : α → Prop) [DecidablePred p] (l : List α) :
    (l.map (fun a => if p a then (1 : Nat) else 0)).sum = l.countP (fun a => decide (p a)) := by
  induction l with
  | nil => rfl
  | cons a as ih =>
    by_cases h : p a
    · simp [h, List.countP_cons, ih, Nat.add_comm]
    · simp [h, List.countP_cons, ih]

theorem levelBase_cases {s : String} {b : Nat} (h : levelBase s = some b) :
    (s = "qm" ∧ b = 0) ∨ (s = "ef" ∧ b = 1000) ∨ (s = "qf" ∧ b = 2000) ∨
    (s = "sf" ∧ b = 3000) ∨ (s = "f" ∧ b = 4000) := by
  unfold levelBase at h
  split_ifs at h with h1 h2 h3 h4 h5
  · exact Or.inl ⟨h1, (Option.some.inj h).symm⟩
  · exact Or.inr (Or.inl ⟨h2, (Option.some.inj h).symm⟩)
  · exact Or.inr (Or.inr (Or.inl ⟨h3, (Option.some.inj h).symm⟩))
  · exact Or.inr (Or.inr (Or.inr (Or.inl ⟨h4, (Option.some.inj h).symm⟩)))
  · exact Or.inr (Or.inr (Or.inr (Or.inr ⟨h5, (Option.some.inj h).symm⟩)))

theorem levelBase_qm_or {s : String} {b : Nat} (h : levelBase s = some b) :
    (s = "qm" ∧ b = 0) ∨ (s ≠ "qm" ∧ (b = 1000 ∨ b = 2000 ∨ b = 3000 ∨ b = 4000)) := by
  rcases levelBase_cases h with ⟨h1, h2⟩ | ⟨h1, h2⟩ | ⟨h1, h2⟩ | ⟨h1, h2⟩ | ⟨h1, h2⟩
  · exact Or.inl ⟨h1, h2⟩
  · exact Or.inr ⟨by rw [h1]; decide, Or.inl h2⟩
  · exact Or.inr ⟨by rw [h1]; decide, Or.inr (Or.inl h2)⟩
  · exact Or.inr ⟨by rw [h1]; decide, Or.inr (Or.inr (Or.inl h2))⟩
  · exact Or.inr ⟨by rw [h1]; decide, Or.inr (Or.inr (Or.inr h2))⟩

/- ------------------------------------------------------------------
   Claim theorems.
   ------------------------------------------------------------------ -/

/-- Claim C7, amended: the match sort key orders matches by competition
    level, then set number (for non-qualification levels), then match
    number, PROVIDED the numbers stay inside the bands the key encoding
    assumes: match numbers below 1000 for qualification matches, and
    set numbers at most 9 with match numbers below 100 for playoff
    levels.  Under those bounds, key comparison coincides with the
    lexicographic comparison on (level base, effective set, match
    number), so sorting by the key groups by level in the fixed level
    order and orders by set then match number within a level.  The
    claimed property is false for arbitrary set and match numbers (see
    the counterexample). -/
theorem claim_C7 (m1 m2 : MatchM) (b1 b2 k1 k2 : Nat)
    (hb1 : levelBase m1.comp_level = some b1) (hb2 : levelBase m2.comp_level = some b2)
    (hq1 : m1.comp_level = "qm" → m1.match_number < 1000)
    (hn1 : m1.comp_level ≠ "qm" → m1.set_number ≤ 9 ∧ m1.match_number < 100)
    (hq2 : m2.comp_level = "qm" → m2.match_number < 1000)
    (hn2 : m2.comp_level ≠ "qm" → m2.set_number ≤ 9 ∧ m2.match_number < 100)
    (hk1 : match_sort_key m1 = some k1) (hk2 : match_sort_key m2 = some k2) :
    k1 < k2 ↔ (b1 < b2 ∨ (b1 = b2 ∧ (effSet m1 < effSet m2 ∨
      (effSet m1 = effSet m2 ∧ m1.match_number < m2.match_number)))) := by
  have e1 : k1 = b1 + (if m1.comp_level ≠ "qm" then 100 * m1.set_number else 0) +
      m1.match_number := by
    unfold match_sort_key at hk1
    rw [hb1] at hk1
    exact (Option.some.inj hk1).symm
  have e2 : k2 = b2 + (if m2.comp_level ≠ "qm" then 100 * m2.set_number else 0) +
      m2.match_number := by
    unfold match_sort_key at hk2
    rw [hb2] at hk2
    exact (Option.some.inj hk2).symm
  rcases levelBase_qm_or hb1 with ⟨hl1, hv1⟩ | ⟨hl1, hv1⟩ <;>
    rcases levelBase_qm_or hb2 with ⟨hl2, hv2⟩ | ⟨hl2, hv2⟩
  · have ef1 : effSet m1 = 0 := by unfold effSet; rw [if_pos hl1]
    have ef2 : effSet m2 = 0 := by unfold effSet; rw [if_pos hl2]
    rw [if_neg (fun h => h hl1)] at e1
    rw [if_neg (fun h => h hl2)] at e2
    have n1 := hq1 hl1
    have n2 := hq2 hl2
    rw [ef1, ef2]
    omega
  · have ef1 : effSet m1 = 0 := by unfold effSet; rw [if_pos hl1]
    have ef2 : effSet m2 = m2.set_number := by unfold effSet; rw [if_neg hl2]
    rw [if_neg (fun h => h hl1)] at e1
    rw [if_pos hl2] at e2
    have n1 := hq1 hl1
    have h2 := hn2 hl2
    rw [ef1, ef2]
    omega
  · have ef1 : effSet m1 = m1.set_number := by unfold effSet; rw [if_neg hl1]
    have ef2 : effSet m2 = 0 := by unfold effSet; rw [if_pos hl2]
    rw [if_pos hl1] at e1
    rw [if_neg (fun h => h hl2)] at e2
    have h1 := hn1 hl1
    have n2 := hq2 hl2
    rw [ef1, ef2]
    omega
  · have ef1 : effSet m1 = m1.set_number := by unfold effSet; rw [if_neg hl1]
    have ef2 : effSet m2 = m2.set_number := by unfold effSet; rw [if_neg hl2]
    rw [if_pos hl1] at e1
    rw [if_pos hl2] at e2
    have h1 := hn1 hl1
    have h2 := hn2 hl2
    rw [ef1, ef2]
    omega

/-- A qualification match with a large match number, breaking the level
    banding of the sort key. -/
def qmBig : MatchM := ⟨"", "qm", 1, 1500, ⟨[], Q.ofInt 0⟩, ⟨[], Q.ofInt 0⟩, []⟩

/-- An octofinal match with set 1, match 1. -/
def efSmall : MatchM := ⟨"", "ef", 1, 1, ⟨[], Q.ofInt 0⟩, ⟨[], Q.ofInt 0⟩, []⟩

/-- Claim C7, counterexample: for arbitrary match numbers the sorted
    sequence does NOT group matches by level.  Qualification match 1500
    gets key 1500 while octofinal set 1 match 1 gets key 1101, so
    sorting by the key puts the octofinal match strictly before the
    qualification match, although the claimed fixed level order lists
    qualification first. -/
theorem claim_C7_counterexample :
    match_sort_key qmBig = some 1500 ∧ match_sort_key efSmall = some 1101 ∧
      ¬(1500 ≤ 1101) := by
  decide

/-- Qualification match 3, used to instantiate claim_C7. -/
def qmW : MatchM := ⟨"", "qm", 1, 3, ⟨[], Q.ofInt 0⟩, ⟨[], Q.ofInt 0⟩, []⟩

/-- Quarterfinal set 2 match 1, used to instantiate claim_C7. -/
def qfW : MatchM := ⟨"", "qf", 2, 1, ⟨[], Q.ofInt 0⟩, ⟨[], Q.ofInt 0⟩, []⟩

/-- Witness for claim_C7: instantiates it on qualification match 3
    versus quarterfinal set 2 match 1 and discharges every hypothesis
    by computation. -/
theorem claim_C7_witness :
    (3 < 2201 ↔ (0 < 2000 ∨ (0 = 2000 ∧ (effSet qmW < effSet qfW ∨
      (effSet qmW = effSet qfW ∧ 3 < 1))))) :=
  claim_C7 qmW qfW 0 2000 3 2201 (by decide) (by decide) (by decide) (by decide)
    (by decide) (by decide) (by decide) (by decide)

/-- Claim C9: the team key normaliser maps 12, "12", "FRC12" and
    "frc12" to "frc12"; it fails with ValueError on "abc" and on the
    digitless "frc"; and in general every string that is neither a
    digit run nor (case-insensitively) frc-prefixed fails with
    ValueError. -/
theorem claim_C9 :
    team_format (.int 12) = .ok "frc12"
  ∧ team_format (.str "12") = .ok "frc12"
  ∧ team_format (.str "FRC12") = .ok "frc12"
  ∧ team_format (.str "frc12") = .ok "frc12"
  ∧ team_format (.str "abc") = .error .valueError
  ∧ team_format (.str "frc") = .error .valueError
  ∧ (∀ s : String, pyIsDigit (pyLower s) = false → pyStartsWith (pyLower s) "frc" = false →
      team_format (.str s) = .error .valueError) := by
  refine ⟨by decide, by decide, by decide, by decide, by decide, by decide, ?_⟩
  intro s h1 h2
  simp [team_format, h1, h2]

/-- Witness for claim_C9: its general failure clause applied to the
    concrete malformed identifier "q123x". -/
theorem claim_C9_witness : team_format (.str "q123x") = .error .valueError :=
  claim_C9.2.2.2.2.2.2 "q123x" (by decide) (by decide)

/-- Claim C3, code evaluation: Event.__init__ only assigns self.key
    when the override is None and info is present.  With an explicit
    override the attribute is never assigned (so the Event key does not
    equal the override; reading it raises AttributeError), and with
    neither argument construction silently succeeds with the attribute
    unset instead of failing.  Only the fallback-to-info case behaves
    as the claim describes. -/
theorem claim_C3 :
    event_init_key (some ⟨"2016chcmp"⟩) (some "2016test") = none
  ∧ event_init_key none (some "2016test") = none
  ∧ event_init_key none none = none
  ∧ event_init_key (some ⟨"2016chcmp"⟩) none = some "2016chcmp" :=
  ⟨rfl, rfl, rfl, rfl⟩

/-- Claim C10: the qualification and playoff accessors partition the
    stored match list: each is an order-preserving sublist of the
    canonical sorted match list, their lengths add up to the total, and
    a match lands in the qualification list exactly when its
    competition level is qm (in the playoff list exactly otherwise). -/
theorem claim_C10 (e : Event) :
    (get_qual_matches e).Sublist e.matchList
  ∧ (get_playoff_matches e).Sublist e.matchList
  ∧ (get_qual_matches e).length + (get_playoff_matches e).length = e.matchList.length
  ∧ (∀ m, m ∈ get_qual_matches e ↔ m ∈ e.matchList ∧ m.comp_level = "qm")
  ∧ (∀ m, m ∈ get_playoff_matches e ↔ m ∈ e.matchList ∧ m.comp_level ≠ "qm") := by
  refine ⟨List.filter_sublist _, List.filter_sublist _, ?_, ?_, ?_⟩
  · have := length_filter_both (fun m => m.comp_level == "qm") e.matchList
    simpa [get_qual_matches, get_playoff_matches, bne] using this
  · intro m
    simp [get_qual_matches, List.mem_filter]
  · intro m
    simp [get_playoff_matches, List.mem_filter, bne]

theorem forall2_mem_right {R : α → β → Prop} :
    ∀ {l : List α} {out : List β}, List.Forall₂ R l out → ∀ b ∈ out, ∃ a ∈ l, R a b := by
  intro l out hf
  induction hf with
  | nil => intro b hb; cases hb
  | cons hr hrest ih =>
    intro b hb
    rcases List.mem_cons.mp hb with rfl | hb2
    · exact ⟨_, List.mem_cons_self _ _, hr⟩
    · rcases ih b hb2 with ⟨a, ha, har⟩
      exact ⟨a, List.mem_cons_of_mem _ ha, har⟩

theorem oprSols_spec {e : Event} {kwargs : List (String × Stat)} {A : List (List Q)}
    {scores : List (List Q)} {sols : List (String × List Q)}
    (h : oprSols e kwargs A scores = .ok sols) :
    sols.map Prod.fst = kwargs.map Prod.fst ∧
    (∀ kx ∈ sols, kx.2.length = e.teams.length ∧ kx.2.length = (retainedIdx e).length) := by
  have hf := mapExcept_ok_forall2 h
  have hrel : ∀ (a : Nat × (String × Stat)) (b : String × List Q),
      (match oprSolve A (retainedIdx e).length (scores.map (fun r => r.getD a.1 (Q.ofInt 0))) with
       | Except.error er => Except.error er
       | Except.ok x => if x.length = e.teams.length then Except.ok (a.2.1, x)
                  else Except.error PyErr.assertionError) = Except.ok b →
      b.1 = a.2.1 ∧ b.2.length = e.teams.length ∧ b.2.length = (retainedIdx e).length := by
    intro a b hab
    split at hab
    · cases hab
    · split at hab
      · cases hab
        rename_i x hx hlen
        exact ⟨rfl, hlen, gauss_ok_length _ _ _ hx⟩
      · cases hab
  constructor
  · have hmap := forall2_map_eq hf (fun a b hab => (hrel a b hab).1)
    rw [hmap]
    have h2 : kwargs.enum.map (fun a => a.2.1) = (kwargs.enum.map Prod.snd).map Prod.fst := by
      rw [List.map_map]
      rfl
    rw [h2, List.enum_map_snd]
  · intro kx hkx
    rcases forall2_mem_right hf kx hkx with ⟨a, _, hab⟩
    exact (hrel a kx hab).2

theorem opr_ok_inv {e : Event} {kw0 : List (String × Stat)}
    {res : List (String × List (String × Q))} (h : opr e kw0 = .ok res) :
    ∃ scores mN sols,
      computeScores e (oprKwargs kw0) = .ok scores ∧
      match_matrix e = .ok mN ∧
      oprSols e (oprKwargs kw0) (mN.map (fun r => r.map (fun x => Q.ofNat x))) scores = .ok sols ∧
      res = assemble e.teams sols := by
  unfold opr at h
  cases hscores : computeScores e (oprKwargs kw0) with
  | error er => simp [hscores] at h
  | ok scores =>
    simp only [hscores] at h
    cases hmN : match_matrix e with
    | error er => simp [hmN] at h
    | ok mN =>
      simp only [hmN] at h
      cases hsols : oprSols e (oprKwargs kw0)
          (mN.map (fun r => r.map (fun x => Q.ofNat x))) scores with
      | error er => simp [hsols] at h
      | ok sols =>
        simp only [hsols] at h
        exact ⟨scores, mN, sols, rfl, rfl, hsols, (Except.ok.inj h).symm⟩

/-- Claim C1, amended: the synthetic alliance-score path OVERWRITES a
    caller-supplied statistic named total (stats.py line 71 assigns
    kwargs[total] before any evaluation), so the caller definition is
    never the one evaluated; the value computed under the total key for
    each alliance row is that alliance raw match score, and the total
    key still appears (at its original position) in the statistic dict
    of every team in the result.  The claimed caller precedence is
    refuted by the counterexample. -/
theorem claim_C1 :
    (∀ kw0 : List (String × Stat), (oprKwargs kw0).lookup "total" = some (Stat.path totPathStr))
  ∧ (∀ m : MatchM, evalStatRed m (.path totPathStr) = .ok m.red.score)
  ∧ (∀ m : MatchM, evalStatBlue m (.path totPathStr) = .ok m.blue.score)
  ∧ (∀ (e : Event) (kw0 : List (String × Stat)) res, opr e kw0 = .ok res →
      ∀ p ∈ res, "total" ∈ p.2.map Prod.fst) := by
  refine ⟨fun kw0 => dictSet_lookup_self kw0 "total" (Stat.path totPathStr),
    fun m => rfl, fun m => rfl, ?_⟩
  intro e kw0 res h p hp
  obtain ⟨scores, mN, sols, _, _, hsols, hres⟩ := opr_ok_inv h
  subst hres
  rcases List.mem_map.mp hp with ⟨it, _, hpeq⟩
  subst hpeq
  have : (sols.map (fun kx => (kx.1, kx.2.getD it.1 (Q.ofInt 0)))).map Prod.fst
      = sols.map Prod.fst := by
    rw [List.map_map]
    rfl
  rw [this, (oprSols_spec hsols).1]
  exact dictSet_key_mem kw0 "total" _

/-- A 2-team event with 9 identical qualification matches (red frc1
    scoring 10, blue frc2 scoring 20); both teams exceed the retention
    threshold and the normal system is nonsingular, so opr succeeds. -/
def E4 : Event :=
  ⟨[⟨"frc1"⟩, ⟨"frc2"⟩], (List.range 9).map (fun i =>
    ⟨"", "qm", 1, i, ⟨["frc1"], Q.ofInt 10⟩, ⟨["frc2"], Q.ofInt 20⟩, []⟩)⟩

/-- The OPR result of E4 under the default statistics. -/
def RES4 : List (String × List (String × Q)) :=
  [("frc1", [("total", Q.ofInt 10)]), ("frc2", [("total", Q.ofInt 20)])]

set_option maxRecDepth 80000 in
/-- Witness for claim_C1: its result clause applied to the concrete
    event E4, whose opr run succeeds with the total key present for
    team frc1. -/
theorem claim_C1_witness : "total" ∈ [("total", Q.ofInt 10)].map Prod.fst :=
  claim_C1.2.2.2 E4 [] RES4 (by decide) ("frc1", [("total", Q.ofInt 10)]) (by decide)

/-- A well-formed 6-team event with a single qualification match whose
    alliances each list exactly three distinct registered teams. -/
def E8 : Event :=
  ⟨[⟨"frc1"⟩, ⟨"frc2"⟩, ⟨"frc3"⟩, ⟨"frc4"⟩, ⟨"frc5"⟩, ⟨"frc6"⟩],
   [⟨"", "qm", 1, 1, ⟨["frc1", "frc2", "frc3"], Q.ofInt 30⟩,
     ⟨["frc4", "frc5", "frc6"], Q.ofInt 25⟩, []⟩]⟩

/-- Claim C1, counterexample: the caller passes total as a function
    that returns 99, yet the evaluated score rows carry the alliance
    match scores 30 and 25 — the synthetic alliance-score path, not the
    caller definition, is what gets evaluated for the total key. -/
theorem claim_C1_counterexample :
    computeScores E8 (oprKwargs [("total", Stat.func (fun _ _ => Q.ofInt 99))]) =
      .ok [[Q.ofInt 30], [Q.ofInt 25]]
  ∧ Q.ofInt 30 ≠ Q.ofInt 99 :=
  ⟨by rfl, by decide⟩

/-- Claim C2, amended: for a statistic given as a path string without a
    leading slash, the red-alliance row resolves it against the red
    score-breakdown sub-object with ONLY the ##ALLIANCE placeholder
    substituted (##OPPALLIANCE is left verbatim there), but the
    blue-alliance row substitutes BOTH placeholders (##ALLIANCE with
    blue and ##OPPALLIANCE with red) before resolving against the blue
    breakdown: the two rows are not symmetric, refuting the claimed
    never-substituted behaviour for the blue row (see counterexample). -/
theorem claim_C2 (m : MatchM) (s : String) (c : Char) (cs : List Char)
    (hd : s.data = c :: cs) (hc : c ≠ '/') :
    evalStatRed m (.path s) = breakdownResolve m "red" (pyReplace s "##ALLIANCE" "red")
  ∧ evalStatBlue m (.path s) =
      breakdownResolve m "blue"
        (pyReplace (pyReplace s "##ALLIANCE" "blue") "##OPPALLIANCE" "red") := by
  constructor
  · simp only [evalStatRed, breakdownResolve, hd]
    simp [hc]
  · simp only [evalStatBlue, breakdownResolve, hd]
    simp [hc]

/-- A match whose score breakdowns distinguish the literal key
    ##OPPALLIANCE from the key red, making any substitution observable. -/
def M2 : MatchM :=
  ⟨"", "qm", 1, 1, ⟨[], Q.ofInt 0⟩, ⟨[], Q.ofInt 0⟩,
   [("red", J.obj [("red", J.num (Q.ofInt 9)), ("##OPPALLIANCE", J.num (Q.ofInt 6))]),
    ("blue", J.obj [("red", J.num (Q.ofInt 7)), ("##OPPALLIANCE", J.num (Q.ofInt 5))])]⟩

/-- Claim C2, counterexample: on the non-slash literal path
    ##OPPALLIANCE, the blue row returns 7, the value stored under the
    substituted key red in the blue breakdown, not 5, the value stored
    under the verbatim key — so ##OPPALLIANCE IS substituted in the
    blue non-slash branch; the red row returns the verbatim value 6,
    exhibiting the asymmetry. -/
theorem claim_C2_counterexample :
    evalStatBlue M2 (.path "##OPPALLIANCE") = .ok (Q.ofInt 7)
  ∧ Q.ofInt 7 ≠ Q.ofInt 5
  ∧ evalStatRed M2 (.path "##OPPALLIANCE") = .ok (Q.ofInt 6) :=
  ⟨by rfl, by decide, by rfl⟩

/-- Witness for claim_C2: its red-row clause instantiated on the
    concrete non-slash path teleopPoints and the match M2. -/
theorem claim_C2_witness :
    evalStatRed M2 (.path "teleopPoints") =
      breakdownResolve M2 "red" (pyReplace "teleopPoints" "##ALLIANCE" "red") :=
  (claim_C2 M2 "teleopPoints" 't' "eleopPoints".data (by decide) (by decide)).1

theorem rawRows_length (e : Event) : (rawRows e).length = 2 * (get_qual_matches e).length := by
  unfold rawRows
  rw [List.length_flatMap]
  induction get_qual_matches e with
  | nil => rfl
  | cons m rest ih =>
    simp only [List.map_cons, List.sum_cons, ih, Function.comp_apply, List.length_cons,
      List.length_nil]
    omega

theorem mem_rawRows {e : Event} {row : List Nat} (h : row ∈ rawRows e) :
    ∃ m ∈ get_qual_matches e,
      row = allianceRow e.teams m.red.teams ∨ row = allianceRow e.teams m.blue.teams := by
  unfold rawRows at h
  rcases List.mem_flatMap.mp h with ⟨m, hm, hin⟩
  refine ⟨m, hm, ?_⟩
  rcases List.mem_cons.mp hin with h1 | h2
  · exact Or.inl h1
  · rcases List.mem_cons.mp h2 with h3 | h4
    · exact Or.inr h3
    · cases h4

theorem allianceRow_sum {teams : List Team} {aT : List String}
    (hnd : (teams.map Team.key).Nodup) (hand : aT.Nodup)
    (hsub : ∀ k ∈ aT, k ∈ teams.map Team.key) :
    (allianceRow teams aT).sum = aT.length := by
  unfold allianceRow
  rw [sum_indicator (fun t => t.key ∈ aT) teams]
  have h1 : teams.countP (fun t => decide (t.key ∈ aT)) =
      (teams.map Team.key).countP (fun k => decide (k ∈ aT)) := by
    rw [List.countP_map]
    rfl
  rw [h1, List.countP_eq_length_filter]
  have hperm : ((teams.map Team.key).filter (fun k => decide (k ∈ aT))).Perm aT := by
    rw [List.perm_ext_iff_of_nodup (List.Nodup.filter _ hnd) hand]
    intro x
    rw [List.mem_filter]
    constructor
    · intro hx
      have := hx.2
      simpa using this
    · intro hx
      exact ⟨hsub x hx, by simpa using hx⟩
  exact hperm.length_eq

/-- Claim C8, amended: the participation matrix returned by the builder
    has exactly 2 rows per qualification match (whenever it is returned
    at all), and for well-formed matches whose alliances each list
    exactly three distinct registered teams, every row of the matrix
    BEFORE column filtering sums to exactly 3.  The rows of the
    RETURNED (column-filtered) matrix can sum to less than 3, because
    dropping the column of a team that played removes its 1 entries
    (see the counterexample). -/
theorem claim_C8 (e : Event) :
    (∀ M, match_matrix e = .ok M → M.length = 2 * (get_qual_matches e).length)
  ∧ ((e.teams.map Team.key).Nodup →
     (∀ m ∈ get_qual_matches e,
        m.red.teams.length = 3 ∧ m.red.teams.Nodup ∧
          (∀ k ∈ m.red.teams, k ∈ e.teams.map Team.key) ∧
        m.blue.teams.length = 3 ∧ m.blue.teams.Nodup ∧
          (∀ k ∈ m.blue.teams, k ∈ e.teams.map Team.key)) →
     ∀ row ∈ rawRows e, row.sum = 3) := by
  constructor
  · intro M h
    unfold match_matrix at h
    split at h
    · cases h
    · cases h
      rw [List.length_map]
      exact rawRows_length e
  · intro hnd hwf row hrow
    rcases mem_rawRows hrow with ⟨m, hm, hcase⟩
    obtain ⟨hr3, hrnd, hrsub, hb3, hbnd, hbsub⟩ := hwf m hm
    rcases hcase with rfl | rfl
    · rw [allianceRow_sum hnd hrnd hrsub, hr3]
    · rw [allianceRow_sum hnd hbnd hbsub, hb3]

/-- Claim C8, counterexample: on the well-formed single-match event E8
    (three distinct registered teams on each alliance, no duplicate
    team keys), every column is dropped by the greater-than-8 filter,
    so the RETURNED matrix is [[], []] and its rows sum to 0, not 3. -/
theorem claim_C8_counterexample :
    (E8.teams.map Team.key).Nodup
  ∧ (∀ m ∈ get_qual_matches E8,
        m.red.teams.length = 3 ∧ m.red.teams.Nodup ∧
          (∀ k ∈ m.red.teams, k ∈ E8.teams.map Team.key) ∧
        m.blue.teams.length = 3 ∧ m.blue.teams.Nodup ∧
          (∀ k ∈ m.blue.teams, k ∈ E8.teams.map Team.key))
  ∧ match_matrix E8 = .ok [[], []]
  ∧ (([] : List Nat).sum = 0 ∧ (0 : Nat) ≠ 3) :=
  ⟨by decide, by decide, by rfl, by decide, by decide⟩

/-- Witness for claim_C8: its row-sum clause applied to E8 and the
    concrete red participation row of its single match. -/
theorem claim_C8_witness : ([1, 1, 1, 0, 0, 0] : List Nat).sum = 3 :=
  (claim_C8 E8).2 (by decide) (by decide) [1, 1, 1, 0, 0, 0] (by decide)

theorem allianceRow_getD {teams : List Team} {aT : List String} {j : Nat}
    (hj : j < teams.length) :
    (allianceRow teams aT).getD j 0 =
      if (teams.get ⟨j, hj⟩).key ∈ aT then 1 else 0 := by
  unfold allianceRow
  rw [List.getD_eq_getElem?_getD, List.getElem?_map, List.getElem?_eq_getElem hj]
  rfl

theorem colCount_le (e : Event)
    (huniq : ∀ m ∈ get_qual_matches e, ∀ t ∈ e.teams,
      ¬(t.key ∈ m.red.teams ∧ t.key ∈ m.blue.teams))
    (j : Nat) (hj : j < e.teams.length) :
    colCount e j ≤ (get_qual_matches e).length := by
  unfold colCount rawRows
  rw [countP_flatMap]
  have hbound := sum_le_length_of_le_one (l := (get_qual_matches e).map (fun m =>
    List.countP (fun row => row.getD j 0 != 0)
      [allianceRow e.teams m.red.teams, allianceRow e.teams m.blue.teams])) ?_
  · rw [List.length_map] at hbound
    exact hbound
  · intro x hx
    rcases List.mem_map.mp hx with ⟨m, hm, rfl⟩
    have h1 := @allianceRow_getD e.teams m.red.teams j hj
    have h2 := @allianceRow_getD e.teams m.blue.teams j hj
    have ht := huniq m hm (e.teams.get ⟨j, hj⟩) (List.get_mem _ _ _)
    simp only [List.countP_cons, List.countP_nil]
    rw [h1, h2]
    by_cases hr : (e.teams.get ⟨j, hj⟩).key ∈ m.red.teams <;>
      by_cases hb : (e.teams.get ⟨j, hj⟩).key ∈ m.blue.teams
    · exact absurd ⟨hr, hb⟩ ht
    · simp only [if_pos hr, if_neg hb]
      decide
    · simp only [if_neg hr, if_pos hb]
      decide
    · simp only [if_neg hr, if_neg hb]
      decide

theorem retainedIdx_nil (e : Event)
    (huniq : ∀ m ∈ get_qual_matches e, ∀ t ∈ e.teams,
      ¬(t.key ∈ m.red.teams ∧ t.key ∈ m.blue.teams))
    (hlen : (get_qual_matches e).length ≤ 8) : retainedIdx e = [] := by
  unfold retainedIdx
  rw [List.filter_eq_nil_iff]
  intro j hj
  rw [List.mem_range] at hj
  have := colCount_le e huniq j hj
  simp only [decide_eq_true_eq]
  omega

theorem oprSols_empty_retained (e : Event) (kwargs : List (String × Stat)) (hkw : kwargs ≠ [])
    (hret : retainedIdx e = []) (ht : e.teams ≠ []) (A : List (List Q)) (sc : List (List Q)) :
    oprSols e kwargs A sc = .error .assertionError := by
  obtain ⟨k0, rest, rfl⟩ := List.exists_cons_of_ne_nil hkw
  unfold oprSols
  rw [List.enum_cons]
  have hsolve : oprSolve A (retainedIdx e).length
      (sc.map (fun r => r.getD (0, k0).1 (Q.ofInt 0))) = .ok [] := by
    rw [hret]
    rfl
  have hne : ¬(([] : List Q).length = e.teams.length) := by
    intro habs
    exact ht (List.length_eq_zero.mp habs.symm)
  simp only [mapExcept, hsolve, if_neg hne]

theorem computeScores_malformed (e : Event) (kwargs : List (String × Stat))
    (m0 : MatchM) (rest : List MatchM) (hq : get_qual_matches e = m0 :: rest)
    (hev : ∀ kv ∈ kwargs, kv.2 ≠ Stat.other → ∃ q, evalStatRed m0 kv.2 = .ok q)
    (hbad : ∃ kv ∈ kwargs, kv.2 = Stat.other) :
    computeScores e kwargs = .error .valueError := by
  have hred : mapExcept (fun kv => evalStatRed m0 kv.2) kwargs = .error .valueError := by
    apply mapExcept_error_of
    · intro kv hkv
      by_cases hother : kv.2 = Stat.other
      · left
        rw [hother]
        rfl
      · right
        exact hev kv hkv hother
    · obtain ⟨kv, hkv, ho⟩ := hbad
      exact ⟨kv, hkv, by rw [ho]; rfl⟩
  have hrow : scoreRows kwargs m0 = .error .valueError := by
    unfold scoreRows
    rw [hred]
  have hme : mapExcept (scoreRows kwargs) (m0 :: rest) = .error .valueError := by
    unfold mapExcept
    rw [hrow]
  unfold computeScores
  rw [hq, hme]

/-- Claim C5, amended: for every event with at least one and fewer
    than nine qualification matches, a nonempty team list, and each
    team on at most one alliance per match, every column count is at
    most 8, so the builder drops every team column (the returned
    matrix rows are all empty), and — provided the statistic
    evaluation phase itself succeeds — computeOPR fails with an
    ASSERTION error: the 0-by-0 normal system solves trivially to the
    empty vector (there is no singular-matrix failure to raise) and
    the assert len(opr) == len(event.teams) then fails.  The claimed
    SingularSystem failure is refuted by the counterexample. -/
theorem claim_C5 (e : Event) (kw0 : List (String × Stat)) (sc : List (List Q))
    (hq : get_qual_matches e ≠ [])
    (hlen : (get_qual_matches e).length < 9)
    (ht : e.teams ≠ [])
    (huniq : ∀ m ∈ get_qual_matches e, ∀ t ∈ e.teams,
      ¬(t.key ∈ m.red.teams ∧ t.key ∈ m.blue.teams))
    (hsc : computeScores e (oprKwargs kw0) = .ok sc) :
    retainedIdx e = []
  ∧ match_matrix e = .ok ((rawRows e).map (fun _ => ([] : List Nat)))
  ∧ opr e kw0 = .error .assertionError := by
  have hret : retainedIdx e = [] := retainedIdx_nil e huniq (by omega)
  have hrawne : rawRows e ≠ [] := by
    obtain ⟨m0, rest, hq2⟩ := List.exists_cons_of_ne_nil hq
    unfold rawRows
    rw [hq2]
    simp [List.flatMap_cons]
  have hmmx : match_matrix e = .ok ((rawRows e).map (fun _ => ([] : List Nat))) := by
    unfold match_matrix
    rw [if_neg (by simpa [List.isEmpty_iff] using hrawne)]
    rw [hret]
    rfl
  refine ⟨hret, hmmx, ?_⟩
  unfold opr
  simp only [hsc, hmmx]
  rw [oprSols_empty_retained e (oprKwargs kw0) (dictSet_ne_nil kw0 "total" _) hret ht _ sc]

/-- A 2-team event with a single qualification match: too small for
    any column to survive the participation filter. -/
def E5 : Event :=
  ⟨[⟨"frc1"⟩, ⟨"frc2"⟩],
   [⟨"", "qm", 1, 1, ⟨["frc1"], Q.ofInt 10⟩, ⟨["frc2"], Q.ofInt 20⟩, []⟩]⟩

/-- Claim C5, counterexample: on the single-match event E5 computeOPR
    fails with AssertionError, not with the claimed singular-matrix
    error. -/
theorem claim_C5_counterexample :
    opr E5 [] = .error .assertionError
  ∧ PyErr.assertionError ≠ PyErr.linAlgSingular
  ∧ (get_qual_matches E5).length < 9 :=
  ⟨by rfl, by decide, by decide⟩

/-- Witness for claim_C5: instantiated on the concrete event E5 with
    no caller statistics. -/
theorem claim_C5_witness :
    retainedIdx E5 = []
  ∧ match_matrix E5 = .ok ((rawRows E5).map (fun _ => ([] : List Nat)))
  ∧ opr E5 [] = .error .assertionError :=
  claim_C5 E5 [] [[Q.ofInt 10], [Q.ofInt 20]] (List.cons_ne_nil _ _) (by decide) (by decide)
    (by decide) (by rfl)

/-- Claim C6, amended: for an event with AT LEAST ONE qualification
    match, a statistic mapping containing an extractor that is neither
    a path string nor a callable under a key OTHER THAN the reserved
    "total" (which line 71 overwrites), and whose well-formed
    extractors evaluate without error on the first match, computeOPR
    raises ValueError (MalformedStatisticSpec) during the score
    evaluation phase — before match_matrix is ever consulted — and
    returns nothing.  With zero qualification matches the evaluation
    loop never runs and the failure is an IndexError out of the
    matrix builder instead (see the counterexample). -/
theorem claim_C6 (e : Event) (kw0 : List (String × Stat)) (m0 : MatchM) (rest : List MatchM)
    (hq : get_qual_matches e = m0 :: rest)
    (hev : ∀ kv ∈ oprKwargs kw0, kv.2 ≠ Stat.other → ∃ q, evalStatRed m0 kv.2 = .ok q)
    (k : String) (hk : (k, Stat.other) ∈ kw0) (hkt : k ≠ "total") :
    computeScores e (oprKwargs kw0) = .error .valueError
  ∧ opr e kw0 = .error .valueError := by
  have hbad : ∃ kv ∈ oprKwargs kw0, kv.2 = Stat.other :=
    ⟨(k, Stat.other), dictSet_mem_of_ne hk "total" _ hkt, rfl⟩
  have hcs := computeScores_malformed e (oprKwargs kw0) m0 rest hq hev hbad
  refine ⟨hcs, ?_⟩
  unfold opr
  simp only [hcs]

/-- Claim C6, counterexample: on an event with no qualification
    matches, a malformed extractor is never inspected; computeOPR
    fails with IndexError (numpy.array([]) is 1-dimensional and the
    column subscript fails), not with the claimed
    MalformedStatisticSpec ValueError. -/
theorem claim_C6_counterexample :
    opr (Event.mk [⟨"frc1"⟩] []) [("bad", Stat.other)] = .error .indexError
  ∧ PyErr.indexError ≠ PyErr.valueError :=
  ⟨by rfl, by decide⟩

/-- Witness for claim_C6: instantiated on the one-match event E5 with
    the malformed statistic mapping containing the integer-like entry
    under the key bad. -/
theorem claim_C6_witness :
    computeScores E5 (oprKwargs [("bad", Stat.other)]) = .error .valueError
  ∧ opr E5 [("bad", Stat.other)] = .error .valueError := by
  refine claim_C6 E5 [("bad", Stat.other)]
    ⟨"", "qm", 1, 1, ⟨["frc1"], Q.ofInt 10⟩, ⟨["frc2"], Q.ofInt 20⟩, []⟩ [] (by rfl) ?_
    "bad" (List.mem_cons_self _ _) (by decide)
  intro kv hkv hne
  have hred : oprKwargs [("bad", Stat.other)] =
      [("bad", Stat.other), ("total", Stat.path totPathStr)] := rfl
  rw [hred] at hkv
  rcases List.mem_cons.mp hkv with rfl | hkv2
  · exact absurd rfl hne
  · rcases List.mem_cons.mp hkv2 with rfl | h3
    · exact ⟨Q.ofInt 10, rfl⟩
    · cases h3

theorem assemble_map_fst (teams : List Team) (sols : List (String × List Q)) :
    (assemble teams sols).map Prod.fst = teams.map Team.key := by
  unfold assemble
  rw [List.map_map]
  have : (Prod.fst ∘ fun it : Nat × Team =>
      (it.2.key, sols.map (fun kx => (kx.1, kx.2.getD it.1 (Q.ofInt 0)))))
      = (Team.key ∘ Prod.snd) := rfl
  rw [this, ← List.map_map, List.enum_map_snd]

/-- Claim C4: whenever computeOPR returns a result (the per-statistic
    length assert passed for every statistic), the retained team
    ordering coincides with the full event team ordering, the result is
    keyed by exactly that ordering, every requested statistic key plus
    the synthetic total appears in the statistic dict of every retained
    team, and for each statistic the i-th component of its solution
    vector is the value assigned to the i-th retained team.  The
    caller keys are assumed distinct, as Python keyword arguments
    always are. -/
theorem claim_C4 (e : Event) (kw0 : List (String × Stat))
    (res : List (String × List (String × Q)))
    (hnd : (kw0.map Prod.fst).Nodup)
    (h : opr e kw0 = .ok res) :
    retainedTeams e = e.teams
  ∧ res.map Prod.fst = (retainedTeams e).map Team.key
  ∧ (∀ p ∈ res, p.2.map Prod.fst = (oprKwargs kw0).map Prod.fst)
  ∧ "total" ∈ (oprKwargs kw0).map Prod.fst
  ∧ (∀ k0 ∈ kw0.map Prod.fst, k0 ∈ (oprKwargs kw0).map Prod.fst)
  ∧ ∃ sols : List (String × List Q),
      sols.map Prod.fst = (oprKwargs kw0).map Prod.fst ∧
      res = assemble e.teams sols ∧
      (∀ (k : String) (x : List Q), (k, x) ∈ sols → x.length = e.teams.length ∧
        ∀ (i : Nat) (t : Team), e.teams.get? i = some t →
          ∃ stats, res.get? i = some (t.key, stats) ∧
            stats.lookup k = some (x.getD i (Q.ofInt 0))) := by
  obtain ⟨scores, mN, sols, hsc, hmN, hsols, hres⟩ := opr_ok_inv h
  obtain ⟨hkeys, hlens⟩ := oprSols_spec hsols
  have hsolsne : sols ≠ [] := by
    intro hnil
    rw [hnil] at hkeys
    have : oprKwargs kw0 = [] := List.map_eq_nil_iff.mp hkeys.symm
    exact dictSet_ne_nil kw0 "total" _ this
  obtain ⟨kx0, hkx0⟩ := List.exists_mem_of_ne_nil _ hsolsne
  have hwlen : (retainedIdx e).length = e.teams.length := by
    obtain ⟨hl1, hl2⟩ := hlens kx0 hkx0
    omega
  have hridx : retainedIdx e = List.range e.teams.length := by
    apply List.Sublist.eq_of_length
    · exact List.filter_sublist _
    · rw [hwlen, List.length_range]
  have hrt : retainedTeams e = e.teams := by
    unfold retainedTeams
    rw [hridx]
    exact filterMap_range_get e.teams
  have hndk : ((oprKwargs kw0).map Prod.fst).Nodup := dictSet_keys_nodup hnd "total" _
  have hndsols : (sols.map Prod.fst).Nodup := by rw [hkeys]; exact hndk
  refine ⟨hrt, ?_, ?_, dictSet_key_mem kw0 "total" _,
    fun k0 hk0 => dictSet_keys_sup hk0 "total" _, sols, hkeys, hres, ?_⟩
  · rw [hres, hrt, assemble_map_fst]
  · intro p hp
    rw [hres] at hp
    rcases List.mem_map.mp hp with ⟨it, _, hpeq⟩
    subst hpeq
    have : (sols.map (fun kx => (kx.1, kx.2.getD it.1 (Q.ofInt 0)))).map Prod.fst
        = sols.map Prod.fst := by
      rw [List.map_map]
      rfl
    rw [this, hkeys]
  · intro k x hkx
    refine ⟨(hlens (k, x) hkx).1, ?_⟩
    intro i t hti
    refine ⟨sols.map (fun kx => (kx.1, kx.2.getD i (Q.ofInt 0))), ?_, ?_⟩
    · rw [hres]
      unfold assemble
      rw [List.get?_eq_getElem?, List.getElem?_map, List.getElem?_enum]
      rw [List.get?_eq_getElem?] at hti
      rw [hti]
      rfl
    · have h1 := lookup_map_pair (fun xx => xx.getD i (Q.ofInt 0)) sols k
      have h2 := nodup_lookup hndsols hkx
      rw [h1, h2]
      rfl

set_option maxRecDepth 80000 in
/-- Witness for claim_C4: on the 9-match event E4 computeOPR succeeds
    with the concrete result RES4, and the retained ordering is the
    full team list. -/
theorem claim_C4_witness : retainedTeams E4 = E4.teams :=
  (claim_C4 E4 [] RES4 (by decide) (by decide)).1
